import Mathlib

/-!
Verification development for an interactive command-line shell written in Rust
(single source file `src/main.rs`).  The definitions below are a shallow
embedding of the program: the tokenizer, the command parser, the pipeline
splitter, the builtin dispatcher, the history formatter, the completion
engine, the pipeline executor (modelled as the trace of spawn / close /
join / wait events it performs) and the top-level control-loop dispatch.
External-world effects (the filesystem, the PATH scan, the current
directory) are passed in as explicit parameters; byte buffers are `String`s
and machine integers that cannot overflow in the program (exit codes
0/1/127, list indices) are `Nat`/`Int`.
-/

/-! ### Characters used by the tokenizer (named to avoid literal clutter) -/

def backslashChar : Char := Char.ofNat 92

def squoteChar : Char := Char.ofNat 39

def dquoteChar : Char := Char.ofNat 34

def dollarChar : Char := Char.ofNat 36

def backtickChar : Char := Char.ofNat 96

def pipeChar : Char := Char.ofNat 124

/-! ### Redirect targets and stage descriptors (`StdoutRedirect`, `StderrRedirect`,
`ParsedCommand` in the source) -/

inductive StdoutRedirect where
  | inherit
  | truncate (path : String)
  | append (path : String)
deriving DecidableEq, Repr

inductive StderrRedirect where
  | inherit
  | truncate (path : String)
  | append (path : String)
deriving DecidableEq, Repr

structure ParsedCommand where
  cmd : String
  args : List String
  stdout : StdoutRedirect
  stderr : StderrRedirect
deriving DecidableEq, Repr

/-! ### Tokenizer (`fn tokenize`) -/

/-- The per-character scanning state of `tokenize`: accumulated tokens,
the token under construction, and the three flags `in_single`, `in_double`,
`backslash`. -/
structure TokState where
  args : List String
  current : String
  in_single : Bool
  in_double : Bool
  backslash : Bool
deriving DecidableEq, Repr

/-- The `dq_escapable` array of the source: the four characters a backslash
escapes inside double quotes (backslash, double quote, dollar, backtick). -/
def dq_escapable (c : Char) : Bool :=
  c == backslashChar || c == dquoteChar || c == dollarChar || c == backtickChar

/-- One iteration of the `for ch in line.chars()` loop of `tokenize`. -/
def tokStep (st : TokState) (ch : Char) : TokState :=
  if st.backslash = true then
    if st.in_single = true then
      { st with current := (st.current.push backslashChar).push ch, backslash := false }
    else if st.in_double = true then
      if dq_escapable ch = true then
        { st with current := st.current.push ch, backslash := false }
      else
        { st with current := (st.current.push backslashChar).push ch, backslash := false }
    else
      { st with current := st.current.push ch, backslash := false }
  else if ch = backslashChar ∧ st.in_single = false then
    { st with backslash := true }
  else if ch = squoteChar ∧ st.in_double = false then
    { st with in_single := !st.in_single }
  else if ch = dquoteChar ∧ st.in_single = false then
    { st with in_double := !st.in_double }
  else if st.in_single = false ∧ st.in_double = false ∧ ch = pipeChar then
    if st.current = "" then { st with args := st.args ++ ["|"] }
    else { st with args := st.args ++ [st.current, "|"], current := "" }
  else if st.in_single = false ∧ st.in_double = false ∧ ch.isWhitespace = true then
    if st.current = "" then st
    else { st with args := st.args ++ [st.current], current := "" }
  else
    { st with current := st.current.push ch }

/-- The epilogue of `tokenize`: a dangling escape keeps its backslash, and a
non-empty final token is emitted. -/
def tokFinish (st : TokState) : List String :=
  let cur := if st.backslash = true then st.current.push backslashChar else st.current
  if cur = "" then st.args else st.args ++ [cur]

/-- `fn tokenize(line: &str) -> Vec<String>`.  (Rust `char::is_whitespace` is
Unicode-aware; `Char.isWhitespace` agrees with it on the ASCII whitespace the
program is exercised with.) -/
def tokenize (line : String) : List String :=
  tokFinish (line.toList.foldl tokStep
    { args := [], current := "", in_single := false, in_double := false, backslash := false })

/-! ### Command parser (`fn parse_command`) -/

/-- Recognizer for the `">" | "1>"` arm of the scan. -/
def isOut1 (t : String) : Bool := t == ">" || t == "1>"

/-- Recognizer for the `">>" | "1>>"` arm of the scan. -/
def isOutA (t : String) : Bool := t == ">>" || t == "1>>"

/-- Recognizer for the `"2>"` arm of the scan. -/
def isErr1 (t : String) : Bool := t == "2>"

/-- Recognizer for the `"2>>"` arm of the scan. -/
def isErrA (t : String) : Bool := t == "2>>"

/-- Any of the six redirection operator tokens. -/
def isRedirOp (t : String) : Bool := isOut1 t || isOutA t || isErr1 t || isErrA t

/-- The `while i < tokens.len()` scan of `parse_command`, carrying the
accumulated argument list and the current stdout/stderr targets; `none`
models the `return None` on an operator with no following token (the
"syntax error near unexpected token newline" report). -/
def scanStage : List String → List String → StdoutRedirect → StderrRedirect →
    Option (List String × StdoutRedirect × StderrRedirect)
  | [], args, o, e => some (args, o, e)
  | t :: rest, args, o, e =>
    if isOut1 t = true then
      match rest with
      | [] => none
      | p :: rest2 => scanStage rest2 args (StdoutRedirect.truncate p) e
    else if isOutA t = true then
      match rest with
      | [] => none
      | p :: rest2 => scanStage rest2 args (StdoutRedirect.append p) e
    else if isErr1 t = true then
      match rest with
      | [] => none
      | p :: rest2 => scanStage rest2 args o (StderrRedirect.truncate p)
    else if isErrA t = true then
      match rest with
      | [] => none
      | p :: rest2 => scanStage rest2 args o (StderrRedirect.append p)
    else
      scanStage rest (args ++ [t]) o e

/-- `fn parse_command(tokens: &[String]) -> Option<ParsedCommand>`. -/
def parse_command (tokens : List String) : Option ParsedCommand :=
  match tokens with
  | [] => none
  | cmd :: rest =>
    match scanStage rest [] StdoutRedirect.inherit StderrRedirect.inherit with
    | none => none
    | some (args, o, e) => some ⟨cmd, args, o, e⟩

/-- The loop body of `fn split_pipeline`, with the `out` and `cur`
accumulators explicit; `none` models the "syntax error near unexpected
token |" reports (empty stage before a pipe, or an empty final stage). -/
def splitGo : List String → List (List String) → List String → Option (List (List String))
  | [], out, cur => if cur = [] then none else some (out ++ [cur])
  | t :: ts, out, cur =>
    if t = "|" then
      if cur = [] then none else splitGo ts (out ++ [cur]) []
    else
      splitGo ts out (cur ++ [t])

/-- `fn split_pipeline(tokens: &[String]) -> Option<Vec<Vec<String>>>`. -/
def split_pipeline (tokens : List String) : Option (List (List String)) :=
  splitGo tokens [] []

/-! ### Builtins (`fn is_builtin`, `fn history_output`, `fn builtin_bytes`) -/

/-- `fn is_builtin(cmd: &str) -> bool`. -/
def is_builtin (cmd : String) : Bool :=
  cmd == "exit" || cmd == "echo" || cmd == "pwd" || cmd == "type" || cmd == "cd" ||
    cmd == "history"

/-- Rust `format!("{:>5}", n)`: the decimal rendering of `n` right-aligned in
a field of (minimum) width five. -/
def padLeft5 (n : Nat) : String :=
  let s := toString n
  if s.length < 5 then String.mk (List.replicate (5 - s.length) (Char.ofNat 32)) ++ s else s

/-- One output line of `history_output`: `format!("{:>5}  {}\n", idx0 + 1, cmd)`. -/
def formatEntry (idx1 : Nat) (cmd : String) : String :=
  padLeft5 idx1 ++ "  " ++ cmd ++ "\n"

/-- The list of lines produced by `fn history_output` (the source pushes them
onto one `String`; keeping the lines as a list makes the per-entry facts
directly statable). -/
def historyLines (history : List String) (n : Option Nat) : List String :=
  let len := history.length
  let start :=
    match n with
    | some k => if k < len then len - k else 0
    | none => 0
  ((history.enum).drop start).map (fun p => formatEntry (p.1 + 1) p.2)

/-- `fn history_output(history: &[String], n: Option<usize>) -> Vec<u8>`. -/
def history_output (history : List String) (n : Option Nat) : String :=
  String.join (historyLines history n)

/-- Rust `str::parse::<usize>().ok()`: an optional leading plus sign followed
by at least one decimal digit (the `usize` overflow failure is not modelled;
no claim involves out-of-range numerals). -/
def parseNat (s : String) : Option Nat :=
  let ds :=
    match s.toList with
    | c :: rest => if c = Char.ofNat 43 then rest else c :: rest
    | [] => []
  if ds ≠ [] ∧ ds.all Char.isDigit = true then
    some (ds.foldl (fun n c => n * 10 + (c.toNat - 48)) 0)
  else none

/-- `fn builtin_bytes(cmd, args, history) -> (Vec<u8>, Vec<u8>, i32)`:
(stdout bytes, stderr bytes, exit code).  The two ambient lookups the source
performs — `find_executable_in_path` (used by `type`) and
`env::current_dir()` (used by `pwd`) — are passed in as `resolve` and `cwd`;
the text of the OS error `pwd` would print is abstracted to a fixed message
(no claim depends on it). -/
def builtin_bytes (resolve : String → Option String) (cwd : Option String)
    (cmd : String) (args : List String) (history : List String) :
    String × String × Int :=
  match cmd with
  | "echo" => (String.intercalate " " args ++ "\n", "", 0)
  | "pwd" =>
    match cwd with
    | some p => (p ++ "\n", "", 0)
    | none => ("", "pwd: could not determine current directory\n", 1)
  | "type" =>
    match args with
    | [] => ("", "type: missing operand\n", 1)
    | target :: _ =>
      if (["exit", "echo", "type", "pwd", "cd", "history"].contains target) = true then
        (target ++ " is a shell builtin\n", "", 0)
      else
        match resolve target with
        | some p => (target ++ " is " ++ p ++ "\n", "", 0)
        | none => (target ++ " not found\n", "", 0)
  | "history" =>
    let n := if args.length = 1 then parseNat (args.headD "") else none
    (history_output history n, "", 0)
  | "cd" => ("", "", 0)
  | "exit" => ("", "", 0)
  | _ => ("", cmd ++ ": command not found\n", 127)

/-! ### Completion engine (`impl Completer for ShellHelper`) -/

/-- The `CompletionState` of the source (`last_prefix`, `armed_for_list`). -/
structure CompletionState where
  lastPfx : Option String
  armedForList : Bool
deriving DecidableEq, Repr

/-- A rustyline completion candidate (`Pair { display, replacement }`). -/
structure Pair where
  display : String
  replacement : String
deriving DecidableEq, Repr

/-- `line[..pos].rfind(|c| c.is_whitespace())`: the index of the last
whitespace character, if any. -/
def rfindWs : List Char → Option Nat
  | [] => none
  | c :: cs =>
    match rfindWs cs with
    | some i => some (i + 1)
    | none => if c.isWhitespace = true then some 0 else none

/-- Lexicographic (code-point) order on character lists; on valid UTF-8 it
coincides with Rust's byte-wise string order. -/
def chLt : List Char → List Char → Bool
  | [], [] => false
  | [], _ :: _ => true
  | _ :: _, [] => false
  | a :: as, b :: bs => if a < b then true else if b < a then false else chLt as bs

/-- String comparison on the underlying character lists. -/
def strLt (a b : String) : Bool := chLt a.toList b.toList

/-- Rust's ascending `Vec::sort` on strings, via insertion sort (stable,
lexicographic). -/
def insertStr (s : String) : List String → List String
  | [] => [s]
  | t :: ts => if strLt t s = true then t :: insertStr s ts else s :: t :: ts

/-- Sort a list of strings ascending (model of `Vec::sort`). -/
def sortStrings : List String → List String
  | [] => []
  | s :: ss => insertStr s (sortStrings ss)

/-- Rust `Vec::dedup`: remove consecutive duplicates. -/
def dedupConsec : List String → List String
  | [] => []
  | [a] => [a]
  | a :: b :: rest =>
    if a = b then dedupConsec (b :: rest) else a :: dedupConsec (b :: rest)

/-- Rust `str::starts_with`, character by character. -/
def chStarts : List Char → List Char → Bool
  | _, [] => true
  | [], _ :: _ => false
  | a :: as, b :: bs => if a = b then chStarts as bs else false

/-- `s.starts_with(pre)` on the underlying character lists. -/
def strStartsWith (s pre : String) : Bool :=
  chStarts s.toList pre.toList

/-- `fn executables_in_path_starting_with`: the PATH directory walk is
abstracted to `files`, the names of the executable regular files found in
the search directories in order; the function keeps those starting with the
prefix, sorts and dedups — exactly as the source does. -/
def execsStartingWith (files : List String) (p : String) : List String :=
  dedupConsec (sortStrings (files.filter (fun n => strStartsWith n p)))

/-- The inner `while` of `fn longest_common_prefix`: the number of leading
positions at which the two character lists agree. -/
def commonLen : List Char → List Char → Nat
  | a :: as, b :: bs => if a = b then commonLen as bs + 1 else 0
  | _, _ => 0

/-- `fn longest_common_prefix(strs: &[String]) -> String`. -/
def lcpOf (strs : List String) : String :=
  match strs with
  | [] => ""
  | [s] => s
  | s :: rest =>
    let first := s.toList
    let e := rest.foldl (fun e t => min e (commonLen (first.take e) t.toList)) first.length
    String.mk (first.take e)

/-- `ShellHelper::complete`.  `execs` abstracts the PATH scan (as in
`execsStartingWith`); the `RefCell` state is threaded explicitly: the result
is (new state, (start position, candidate pairs)). -/
def complete (execs : List String) (st : CompletionState) (line : String) (pos : Nat) :
    CompletionState × Nat × List Pair :=
  let cs := line.toList.take pos
  let start :=
    match rfindWs cs with
    | some i => i + 1
    | none => 0
  if start ≠ 0 then (st, pos, [])
  else
    let pfx := String.mk cs
    if pfx = "" then (st, pos, [])
    else
      let ms := dedupConsec (sortStrings
        ((["echo", "exit", "type", "pwd", "cd", "history"].filter
            (fun b => strStartsWith b pfx)) ++ execsStartingWith execs pfx))
      match ms with
      | [] => (⟨none, false⟩, pos, [])
      | [m] => (⟨none, false⟩, start, [⟨m, m ++ " "⟩])
      | _ =>
        let lcp := lcpOf ms
        if pfx.length < lcp.length then (⟨none, false⟩, start, [⟨lcp, lcp⟩])
        else if st.lastPfx = some pfx ∧ st.armedForList = true then
          ({ st with armedForList := false }, start, ms.map (fun m => ⟨m, m⟩))
        else
          ({ st with lastPfx := some pfx, armedForList := true }, pos, [])

/-! ### Pipeline executor (`fn execute_pipeline`), modelled as an event trace -/

/-- The observable actions `execute_pipeline` performs, in order: spawning a
builtin thread / external child for stage `i`, an `eprintln!` to the shell's
own (un-redirected) stderr, the parent dropping its pipe ends, joining a
builtin thread, waiting on a child. -/
inductive ExecEvent where
  | spawnBuiltin (i : Nat) (cmd : String)
  | spawnExternal (i : Nat) (cmd : String)
  | eprintMsg (msg : String)
  | closePipes
  | joinBuiltin (i : Nat)
  | waitChild (i : Nat)
deriving DecidableEq, Repr

/-- The `for (i, stage) in stages.iter().enumerate()` spawn loop: returns the
events so far, the stage indices that got builtin threads, the stage indices
that got child processes (both in spawn order, matching the
`builtin_threads` / `children` vectors), and whether the loop aborted with
an early `return` (unresolved external command). -/
def spawnStages (resolve : String → Option String) :
    List (Nat × ParsedCommand) → List ExecEvent × List Nat × List Nat × Bool
  | [] => ([], [], [], false)
  | (i, st) :: rest =>
    if is_builtin st.cmd = true then
      let res := spawnStages resolve rest
      (ExecEvent.spawnBuiltin i st.cmd :: res.1, i :: res.2.1, res.2.2.1, res.2.2.2)
    else
      match resolve st.cmd with
      | none => ([ExecEvent.eprintMsg (st.cmd ++ ": command not found")], [], [], true)
      | some _ =>
        let res := spawnStages resolve rest
        (ExecEvent.spawnExternal i st.cmd :: res.1, res.2.1, i :: res.2.2.1, res.2.2.2)

/-- `fn execute_pipeline(stages, history_vec)` as its event trace.  On the
normal path the source reaches `drop(pipes)`, then joins `builtin_threads`
in push order, then waits `children` in push order.  On the early `return`
for an unresolved command the pipe fds are still closed by scope exit, but
no join and no wait happens (children are leaked un-reaped, builtin thread
handles are detached). -/
def execute_pipeline (resolve : String → Option String) (stages : List ParsedCommand) :
    List ExecEvent :=
  if stages = [] then []
  else
    let res := spawnStages resolve stages.enum
    if res.2.2.2 = true then res.1 ++ [ExecEvent.closePipes]
    else
      res.1 ++ [ExecEvent.closePipes] ++ (res.2.1).map ExecEvent.joinBuiltin ++
        (res.2.2.1).map ExecEvent.waitChild

/-- The stage index a trace event reaps (joins or waits), if any. -/
def reapIndex : ExecEvent → Option Nat
  | ExecEvent.joinBuiltin i => some i
  | ExecEvent.waitChild i => some i
  | _ => none

/-- The stage indices a trace reaps, in order. -/
def reapOrder (tr : List ExecEvent) : List Nat :=
  tr.filterMap reapIndex

/-- Indices of the builtin stages, ascending. -/
def builtinIdxs (stages : List ParsedCommand) : List Nat :=
  ((stages.enum).filter (fun p => is_builtin (p.2).cmd)).map Prod.fst

/-- Indices of the external (non-builtin) stages, ascending. -/
def externalIdxs (stages : List ParsedCommand) : List Nat :=
  ((stages.enum).filter (fun p => !is_builtin (p.2).cmd)).map Prod.fst

/-- The spawn events of an indexed stage list in which every stage starts. -/
def mapSpawn (l : List (Nat × ParsedCommand)) : List ExecEvent :=
  l.map (fun p =>
    if is_builtin (p.2).cmd = true then ExecEvent.spawnBuiltin p.1 (p.2).cmd
    else ExecEvent.spawnExternal p.1 (p.2).cmd)

/-! ### Top-level control loop (`fn main`), one line at a time -/

/-- What `main` does with one accepted line after parsing: nothing (`.skip`,
the various `continue`s), leave the loop (`exit` as the sole stage), the
parent-state `cd` block, a single builtin via `builtin_bytes` +
`write_routed_output`, a single external via `run_single_external`, or
`execute_pipeline`. -/
inductive LoopAction where
  | exitShell
  | skip
  | cdSingle (args : List String)
  | builtinSingle (stage : ParsedCommand)
  | externalSingle (stage : ParsedCommand)
  | pipeline (stages : List ParsedCommand)
deriving DecidableEq, Repr

/-- The `for chunk in chunks` loop of `main`: parse every stage, clearing
everything on the first failure. -/
def parseStages : List (List String) → Option (List ParsedCommand)
  | [] => some []
  | c :: cs =>
    match parse_command c with
    | none => none
    | some pc =>
      match parseStages cs with
      | none => none
      | some rest => some (pc :: rest)

/-- The dispatch `main` performs on the token list of one line. -/
def dispatch (tokens : List String) : LoopAction :=
  match split_pipeline tokens with
  | none => LoopAction.skip
  | some chunks =>
    match parseStages chunks with
    | none => LoopAction.skip
    | some stages =>
      match stages with
      | [] => LoopAction.skip
      | [s] =>
        if s.cmd = "exit" then LoopAction.exitShell
        else if s.cmd = "cd" then LoopAction.cdSingle s.args
        else if is_builtin s.cmd = true then LoopAction.builtinSingle s
        else LoopAction.externalSingle s
      | _ => LoopAction.pipeline stages

/-- Rust `str::trim_end` (trailing whitespace removed), applied by `main` to
each raw line. -/
def trimEnd (s : String) : String :=
  String.mk ((s.toList.reverse.dropWhile Char.isWhitespace).reverse)

/-- One iteration of `main`'s read loop on an accepted raw line: the updated
`history_vec` (the line is pushed before tokenizing whenever it is non-empty
after the trim) and the action taken. -/
def processLine (hist : List String) (raw : String) : List String × LoopAction :=
  let line := trimEnd raw
  if line = "" then (hist, LoopAction.skip)
  else (hist ++ [line], dispatch (tokenize line))

/-- The single-stage `cd` block of `main`: given the home directory and a
predicate telling which paths `env::set_current_dir` would accept, returns
the new working directory and the `eprintln!` text (empty when none). -/
def runCdSingle (home : Option String) (dirExists : String → Bool) (cwd : String)
    (args : List String) : String × String :=
  match args with
  | [] => (cwd, "")
  | dest :: _ =>
    let target := if dest = "~" then home else some dest
    match target with
    | none => (cwd, "cd: ~: No such file or directory\n")
    | some t =>
      if dirExists t = true then (t, "")
      else (cwd, "cd: " ++ dest ++ ": No such file or directory\n")

/-- The working directory after `main` executes one dispatched action: only
the single-stage `cd` block ever calls `env::set_current_dir`; every other
action (in particular `execute_pipeline`, whose builtin stages go through
the pure `builtin_bytes`) leaves it alone. -/
def cwdAfter (home : Option String) (dirExists : String → Bool) (cwd : String)
    (a : LoopAction) : String :=
  match a with
  | LoopAction.cdSingle args => (runCdSingle home dirExists cwd args).1
  | _ => cwd

/-! ### Specification-side characterizations used to state the claims -/

/-- Every token in the accumulator is non-empty. -/
def allNE (st : TokState) : Prop := ∀ t ∈ st.args, t ≠ ""

/-- Characterizes the token lists on which the redirection scan of
`parse_command` reaches an operator with no following token: operators are
consumed together with the following path token, other tokens are skipped. -/
def danglingScan : List String → Bool
  | [] => false
  | t :: rest =>
    if isRedirOp t = true then
      match rest with
      | [] => true
      | _ :: rest2 => danglingScan rest2
    else danglingScan rest

/-- A well-formed stage item: a plain argument, or a redirection operator
together with its path token. -/
inductive RItem where
  | arg (s : String)
  | redir (op : String) (path : String)
deriving DecidableEq, Repr

/-- The token list a sequence of stage items denotes. -/
def renderItems : List RItem → List String
  | [] => []
  | RItem.arg s :: rest => s :: renderItems rest
  | RItem.redir op p :: rest => op :: p :: renderItems rest

/-- The plain arguments of a sequence of stage items, in order. -/
def itemArgs : List RItem → List String
  | [] => []
  | RItem.arg s :: rest => s :: itemArgs rest
  | RItem.redir _ _ :: rest => itemArgs rest

/-- The stdout redirect target a sequence of stage items leaves behind,
starting from `o`: each stdout operator overwrites it. -/
def stdoutOf (o : StdoutRedirect) : List RItem → StdoutRedirect
  | [] => o
  | RItem.arg _ :: rest => stdoutOf o rest
  | RItem.redir op p :: rest =>
    if isOut1 op = true then stdoutOf (StdoutRedirect.truncate p) rest
    else if isOutA op = true then stdoutOf (StdoutRedirect.append p) rest
    else stdoutOf o rest

/-- The stderr redirect target a sequence of stage items leaves behind,
starting from `e`: each stderr operator overwrites it. -/
def stderrOf (e : StderrRedirect) : List RItem → StderrRedirect
  | [] => e
  | RItem.arg _ :: rest => stderrOf e rest
  | RItem.redir op p :: rest =>
    if isErr1 op = true then stderrOf (StderrRedirect.truncate p) rest
    else if isErrA op = true then stderrOf (StderrRedirect.append p) rest
    else stderrOf e rest

/-- Well-formedness of a stage item sequence: arguments are not operator
tokens (path tokens are unconstrained, as in the source, which consumes the
token after an operator unconditionally). -/
def itemsWF (items : List RItem) : Prop :=
  ∀ it ∈ items,
    match it with
    | RItem.arg s => isRedirOp s = false
    | RItem.redir op _ => isRedirOp op = true

/-! ### Helper lemmas -/

/-- The possible shapes of the token list after one tokenizer step: unchanged,
a lone pipe token appended, the current token flushed followed by a pipe, or
the current token flushed alone — the latter two only when it is non-empty. -/
theorem tokStep_args (st : TokState) (ch : Char) :
    (tokStep st ch).args = st.args ∨
    (tokStep st ch).args = st.args ++ ["|"] ∨
    ((tokStep st ch).args = st.args ++ [st.current, "|"] ∧ st.current ≠ "") ∨
    ((tokStep st ch).args = st.args ++ [st.current] ∧ st.current ≠ "") := by
  unfold tokStep
  repeat' split
  all_goals try dsimp only
  all_goals
    first
      | (left; rfl)
      | (right; left; rfl)
      | (right; right; left; exact ⟨rfl, by assumption⟩)
      | (right; right; right; exact ⟨rfl, by assumption⟩)

theorem tokStep_allNE (st : TokState) (ch : Char) (h : allNE st) : allNE (tokStep st ch) := by
  unfold allNE at h ⊢
  rcases tokStep_args st ch with ha | ha | ⟨ha, hc⟩ | ⟨ha, hc⟩ <;> rw [ha]
  · exact h
  · intro t ht
    rcases List.mem_append.mp ht with h1 | h1
    · exact h t h1
    · simp only [List.mem_singleton] at h1
      subst h1
      decide
  · intro t ht
    rcases List.mem_append.mp ht with h1 | h1
    · exact h t h1
    · rcases List.mem_cons.mp h1 with h2 | h2
      · subst h2; exact hc
      · simp only [List.mem_singleton] at h2
        subst h2
        decide
  · intro t ht
    rcases List.mem_append.mp ht with h1 | h1
    · exact h t h1
    · simp only [List.mem_singleton] at h1
      subst h1
      exact hc

theorem foldl_allNE (cs : List Char) (st : TokState) (h : allNE st) :
    allNE (cs.foldl tokStep st) := by
  induction cs generalizing st with
  | nil => exact h
  | cons c cs ih => exact ih _ (tokStep_allNE st c h)

theorem tokFinish_allNE (st : TokState) (h : allNE st) : ∀ t ∈ tokFinish st, t ≠ "" := by
  intro t ht
  simp only [tokFinish] at ht
  have key : ∀ cur : String, t ∈ (if cur = "" then st.args else st.args ++ [cur]) → t ≠ "" := by
    intro cur hmem
    by_cases hc : cur = ""
    · rw [if_pos hc] at hmem
      exact h t hmem
    · rw [if_neg hc] at hmem
      rcases List.mem_append.mp hmem with h1 | h1
      · exact h t h1
      · simp only [List.mem_singleton] at h1
        subst h1
        exact hc
  exact key _ ht

/-- Appending one entry to the log appends one formatted line, numbered with
the new length. -/
theorem historyLines_concat (l : List String) (a : String) :
    historyLines (l ++ [a]) none = historyLines l none ++ [formatEntry (l.length + 1) a] := by
  simp only [historyLines, List.drop_zero, List.enum_append]
  rw [List.map_append]
  rfl

/-! ### Claims -/

/-- Claim C5: inside double quotes a backslash escapes exactly the four
characters backslash, double quote, dollar and backtick (emitting the bare
character), while for any other character both the backslash and the
character are emitted; and tokenizing the double-quoted line of the spec's
round-trip example yields the single token with only the dollar and the
double quote unescaped. -/
theorem claim_C5 :
    (∀ (st : TokState) (c : Char), st.backslash = false → st.in_single = false →
      st.in_double = true →
      tokStep (tokStep st backslashChar) c =
        { st with current :=
            if dq_escapable c = true then st.current.push c
            else (st.current.push backslashChar).push c }) ∧
    tokenize "\"a\\$b\\\"c\\d\"" = ["a$b\"c\\d"] := by
  constructor
  · intro st c hb hs hd
    by_cases hc : dq_escapable c = true
    · simp [tokStep, hb, hs, hd, hc]
    · simp [tokStep, hb, hs, hd, hc]
  · rfl

/-- Witness for C5 at a concrete state and the concrete character d (not in
the escapable set): both the backslash and the d are kept. -/
theorem claim_C5_witness :
    tokStep (tokStep ⟨[], "x", false, true, false⟩ backslashChar) (Char.ofNat 100) =
      ⟨[], "x\\d", false, true, false⟩ := by
  have h := claim_C5.1 ⟨[], "x", false, true, false⟩ (Char.ofNat 100) rfl rfl rfl
  rw [h]
  rfl

/-- Claim C8: every token the tokenizer produces is non-empty; in particular
a quoted empty string surrounded by whitespace contributes no token. -/
theorem claim_C8 :
    (∀ (line : String) (t : String), t ∈ tokenize line → t ≠ "") ∧
    tokenize "a \"\" b" = ["a", "b"] := by
  constructor
  · intro line t ht
    have h0 : allNE
        { args := [], current := "", in_single := false, in_double := false,
          backslash := false } := by
      intro t ht
      cases ht
    exact tokFinish_allNE _ (foldl_allNE _ _ h0) t ht
  · rfl

/-- Witness for C8: the tokens of a concrete line are non-empty. -/
theorem claim_C8_witness : "echo" ≠ "" ∧ "hi" ≠ "" :=
  ⟨claim_C8.1 "echo hi" "echo" (by decide), claim_C8.1 "echo hi" "hi" (by decide)⟩

/-- Claim C7: `history` with no argument prints the whole log in order, each
line prefixed with its 1-based index right-aligned in a width-5 field plus
two spaces; with numeric argument `n` it prints exactly the last
`min n length` entries keeping their original indices (the dropped prefix of
the full rendering); and `builtin_bytes` routes both invocations to
`history_output` accordingly. -/
theorem claim_C7 :
    (∀ (h : List String),
        historyLines h none = (h.enum).map (fun p => formatEntry (p.1 + 1) p.2)) ∧
    (∀ (h : List String) (k : Nat),
        historyLines h (some k) =
          ((h.enum).map (fun p => formatEntry (p.1 + 1) p.2)).drop
            (h.length - min k h.length) ∧
        (historyLines h (some k)).length = min k h.length) ∧
    (∀ (resolve : String → Option String) (cwd : Option String) (h : List String),
        builtin_bytes resolve cwd "history" [] h = (history_output h none, "", 0)) ∧
    (∀ (resolve : String → Option String) (cwd : Option String) (h : List String)
        (s : String) (k : Nat), parseNat s = some k →
        builtin_bytes resolve cwd "history" [s] h = (history_output h (some k), "", 0)) := by
  refine ⟨?_, ?_, ?_, ?_⟩
  · intro h
    simp [historyLines]
  · intro h k
    constructor
    · simp only [historyLines]
      rw [List.map_drop]
      by_cases hk : k < h.length
      · rw [if_pos hk, Nat.min_eq_left (Nat.le_of_lt hk)]
      · rw [if_neg hk, Nat.min_eq_right (Nat.le_of_not_lt hk), Nat.sub_self]
    · simp only [historyLines]
      rw [List.length_map, List.length_drop, List.enum_length]
      by_cases hk : k < h.length
      · rw [if_pos hk, Nat.min_eq_left (Nat.le_of_lt hk),
          Nat.sub_sub_self (Nat.le_of_lt hk)]
      · rw [if_neg hk, Nat.min_eq_right (Nat.le_of_not_lt hk), Nat.sub_zero]
  · intro resolve cwd h
    rfl
  · intro resolve cwd h s k hk
    have h1 : builtin_bytes resolve cwd "history" [s] h =
        (history_output h (parseNat s), "", 0) := rfl
    rw [h1, hk]

/-- Witness for C7: `history 2` on a three-entry log. -/
theorem claim_C7_witness :
    builtin_bytes (fun _ => none) none "history" ["2"] ["a", "b", "c"] =
      (history_output ["a", "b", "c"] (some 2), "", 0) :=
  claim_C7.2.2.2 (fun _ => none) none ["a", "b", "c"] "2" 2 (by decide)

/-- Claim C10: a line that is empty after trailing-whitespace trimming is
never logged; every other line is appended to the history log before any
tokenizing, parsing or execution (in particular a line that fails with a
syntax error is still logged); and a single-stage `history` invocation runs
against the log already containing itself, so its last printed line is its
own command line under the new final index. -/
theorem claim_C10 :
    (∀ (hist : List String) (raw : String), trimEnd raw = "" →
        processLine hist raw = (hist, LoopAction.skip)) ∧
    (∀ (hist : List String) (raw : String), trimEnd raw ≠ "" →
        (processLine hist raw).1 = hist ++ [trimEnd raw]) ∧
    (∀ hist : List String,
        processLine hist "echo hi >" = (hist ++ ["echo hi >"], LoopAction.skip)) ∧
    (∀ hist : List String,
        processLine hist "history" =
          (hist ++ ["history"],
            LoopAction.builtinSingle
              ⟨"history", [], StdoutRedirect.inherit, StderrRedirect.inherit⟩) ∧
        (historyLines (hist ++ ["history"]) none).getLast? =
          some (formatEntry (hist.length + 1) "history")) := by
  refine ⟨?_, ?_, ?_, ?_⟩
  · intro hist raw h
    simp [processLine, h]
  · intro hist raw h
    simp [processLine, h]
  · intro hist
    rfl
  · intro hist
    refine ⟨rfl, ?_⟩
    rw [historyLines_concat, List.getLast?_concat]

/-- Witness for C10: a concrete non-empty line is logged. -/
theorem claim_C10_witness : (processLine [] "history").1 = [] ++ ["history"] :=
  claim_C10.2.1 [] "history" (by decide)

/-- If the redirection scan reaches an operator as the final token, the scan
fails (models the `return None` of `parse_command`).  Stated with a fuel
bound to drive the two-tokens-at-a-time induction. -/
theorem scan_dangle : ∀ (n : Nat) (rest : List String), rest.length ≤ n →
    danglingScan rest = true →
    ∀ (args : List String) (o : StdoutRedirect) (e : StderrRedirect),
      scanStage rest args o e = none := by
  intro n
  induction n with
  | zero =>
    intro rest hlen hd args o e
    have h0 : rest = [] := List.eq_nil_of_length_eq_zero (Nat.le_zero.mp hlen)
    subst h0
    simp [danglingScan] at hd
  | succ n ih =>
    intro rest hlen hd args o e
    cases rest with
    | nil => simp [danglingScan] at hd
    | cons t rest1 =>
      by_cases h1 : isOut1 t = true
      · have hop : isRedirOp t = true := by simp [isRedirOp, h1]
        cases rest1 with
        | nil => simp [scanStage, h1]
        | cons p rest2 =>
          have hd2 : danglingScan rest2 = true := by
            simpa [danglingScan, hop] using hd
          have hlen2 : rest2.length ≤ n := by
            simp only [List.length_cons] at hlen
            omega
          simp only [scanStage, h1, if_true]
          exact ih rest2 hlen2 hd2 args (StdoutRedirect.truncate p) e
      · by_cases h2 : isOutA t = true
        · have hop : isRedirOp t = true := by simp [isRedirOp, h2]
          cases rest1 with
          | nil => simp [scanStage, h1, h2]
          | cons p rest2 =>
            have hd2 : danglingScan rest2 = true := by
              simpa [danglingScan, hop] using hd
            have hlen2 : rest2.length ≤ n := by
              simp only [List.length_cons] at hlen
              omega
            simp only [scanStage, h1, h2, if_true, if_false]
            exact ih rest2 hlen2 hd2 args (StdoutRedirect.append p) e
        · by_cases h3 : isErr1 t = true
          · have hop : isRedirOp t = true := by simp [isRedirOp, h3]
            cases rest1 with
            | nil => simp [scanStage, h1, h2, h3]
            | cons p rest2 =>
              have hd2 : danglingScan rest2 = true := by
                simpa [danglingScan, hop] using hd
              have hlen2 : rest2.length ≤ n := by
                simp only [List.length_cons] at hlen
                omega
              simp [scanStage, h1, h2, h3]
              exact ih rest2 hlen2 hd2 args o (StderrRedirect.truncate p)
          · by_cases h4 : isErrA t = true
            · have hop : isRedirOp t = true := by simp [isRedirOp, h4]
              cases rest1 with
              | nil => simp [scanStage, h1, h2, h3, h4]
              | cons p rest2 =>
                have hd2 : danglingScan rest2 = true := by
                  simpa [danglingScan, hop] using hd
                have hlen2 : rest2.length ≤ n := by
                  simp only [List.length_cons] at hlen
                  omega
                simp [scanStage, h1, h2, h3, h4]
                exact ih rest2 hlen2 hd2 args o (StderrRedirect.append p)
            · have hop : isRedirOp t = false := by
                simp [isRedirOp, h1, h2, h3, h4]
              cases rest1 with
              | nil => simp [danglingScan, hop] at hd
              | cons p rest2 =>
                have hd2 : danglingScan (p :: rest2) = true := by
                  simpa [danglingScan, hop] using hd
                have hlen2 : (p :: rest2).length ≤ n := by
                  simp only [List.length_cons] at hlen ⊢
                  omega
                simp only [scanStage, h1, h2, h3, h4, if_false]
                exact ih (p :: rest2) hlen2 hd2 (args ++ [t]) o e

/-- If any chunk fails to parse, the whole stage list is discarded. -/
theorem parseStages_none : ∀ (chunks : List (List String)) (k : List String),
    k ∈ chunks → parse_command k = none → parseStages chunks = none := by
  intro chunks
  induction chunks with
  | nil =>
    intro k hk
    cases hk
  | cons c cs ih =>
    intro k hk hp
    rcases List.mem_cons.mp hk with h1 | h1
    · subst h1
      simp [parseStages, hp]
    · cases hc : parse_command c with
      | none => simp [parseStages, hc]
      | some pc => simp [parseStages, hc, ih k h1 hp]

/-- Claim C6 (amended): an operator reached by the left-to-right redirection
scan as the last token of a stage — that is, one that is neither the command
name itself nor consumed as the path of a preceding operator — makes
`parse_command` fail with the syntax error; and whenever any stage of a line
fails to parse, the control loop takes no action at all for that line (no
stage is executed, so nothing is written and no redirect file is opened) and
proceeds to the next prompt. -/
theorem claim_C6 :
    (∀ (cmd : String) (rest : List String), danglingScan rest = true →
        parse_command (cmd :: rest) = none) ∧
    (∀ (tokens : List String) (chunks : List (List String)) (k : List String),
        split_pipeline tokens = some chunks → k ∈ chunks → parse_command k = none →
        dispatch tokens = LoopAction.skip) := by
  constructor
  · intro cmd rest hd
    have h := scan_dangle rest.length rest (Nat.le_refl _) hd [] StdoutRedirect.inherit
      StderrRedirect.inherit
    simp [parse_command, h]
  · intro tokens chunks k hs hk hp
    have h := parseStages_none chunks k hk hp
    simp [dispatch, hs, h]

/-- Counterexample to C6 as stated: a stage token list whose last token is a
recognized redirection operator but parses successfully — the operator in
command position is taken as the command name, and the line then executes a
stage (an external single command) rather than aborting with a syntax
error. -/
theorem claim_C6_counterexample :
    parse_command [">"] =
      some ⟨">", [], StdoutRedirect.inherit, StderrRedirect.inherit⟩ ∧
    dispatch [">"] =
      LoopAction.externalSingle ⟨">", [], StdoutRedirect.inherit, StderrRedirect.inherit⟩ :=
  ⟨rfl, rfl⟩

/-- Witness for C6 on the spec's own example line `echo hi >`. -/
theorem claim_C6_witness :
    parse_command ["echo", "hi", ">"] = none ∧
    dispatch ["echo", "hi", ">"] = LoopAction.skip := by
  constructor
  · exact claim_C6.1 "echo" ["hi", ">"] (by decide)
  · exact claim_C6.2 ["echo", "hi", ">"] [["echo", "hi", ">"]] ["echo", "hi", ">"]
      (by decide) (by decide) (claim_C6.1 "echo" ["hi", ">"] (by decide))

/-- Claim C3 (amended): the builtin `cd`, when run as a pipeline stage via
`builtin_bytes`, is a pure no-op — it returns success with no output and no
error for every argument list, performing no validation of the target — and
executing a pipeline action never changes the session's working directory;
the line `cd /tmp | true` indeed dispatches to the pipeline executor. -/
theorem claim_C3 :
    (∀ (resolve : String → Option String) (cwd : Option String)
        (args hist : List String),
        builtin_bytes resolve cwd "cd" args hist = ("", "", 0)) ∧
    (∀ (home : Option String) (dirExists : String → Bool) (cwd : String)
        (stages : List ParsedCommand),
        cwdAfter home dirExists cwd (LoopAction.pipeline stages) = cwd) ∧
    dispatch (tokenize "cd /tmp | true") =
      LoopAction.pipeline
        [⟨"cd", ["/tmp"], StdoutRedirect.inherit, StderrRedirect.inherit⟩,
         ⟨"true", [], StdoutRedirect.inherit, StderrRedirect.inherit⟩] := by
  refine ⟨?_, ?_, ?_⟩
  · intro resolve cwd args hist
    rfl
  · intro home dirExists cwd stages
    rfl
  · rfl

/-- Counterexample to C3 as stated: a pipeline-stage `cd` with a target that
exists nowhere still reports success with an empty error stream, and its
result does not depend on the argument at all — no validation happens, and
no failure is ever reported. -/
theorem claim_C3_counterexample :
    builtin_bytes (fun _ => none) none "cd" ["/path/that/does/not/exist"] [] =
      ("", "", 0) ∧
    builtin_bytes (fun _ => none) none "cd" ["/path/that/does/not/exist"] [] =
      builtin_bytes (fun _ => none) none "cd" ["/"] [] :=
  ⟨rfl, rfl⟩

/-- Generic unfolding of one step of the redirection scan (the pattern-split
equation lemmas need the tail's shape; this reassembles them). -/
theorem scanStage_cons (t : String) (rest args : List String) (o : StdoutRedirect)
    (e : StderrRedirect) :
    scanStage (t :: rest) args o e =
      if isOut1 t = true then
        match rest with
        | [] => none
        | p :: rest2 => scanStage rest2 args (StdoutRedirect.truncate p) e
      else if isOutA t = true then
        match rest with
        | [] => none
        | p :: rest2 => scanStage rest2 args (StdoutRedirect.append p) e
      else if isErr1 t = true then
        match rest with
        | [] => none
        | p :: rest2 => scanStage rest2 args o (StderrRedirect.truncate p)
      else if isErrA t = true then
        match rest with
        | [] => none
        | p :: rest2 => scanStage rest2 args o (StderrRedirect.append p)
      else
        scanStage rest (args ++ [t]) o e := by
  cases rest <;> rfl

/-- On a well-formed item sequence the scan succeeds and accumulates the
arguments while folding the redirect targets left to right. -/
theorem scan_render : ∀ (items : List RItem) (args : List String) (o : StdoutRedirect)
    (e : StderrRedirect), itemsWF items →
    scanStage (renderItems items) args o e =
      some (args ++ itemArgs items, stdoutOf o items, stderrOf e items) := by
  intro items
  induction items with
  | nil =>
    intro args o e _
    simp [renderItems, itemArgs, stdoutOf, stderrOf, scanStage]
  | cons it rest ih =>
    intro args o e hwf
    have hhead := hwf it (List.mem_cons_self it rest)
    have htail : itemsWF rest := fun x hx => hwf x (List.mem_cons_of_mem it hx)
    cases it with
    | arg s =>
      simp only [itemsWF] at hhead
      have hs : isOut1 s = false ∧ isOutA s = false ∧ isErr1 s = false ∧ isErrA s = false := by
        simpa [isRedirOp, Bool.or_eq_false_iff, and_assoc] using hhead
      simp only [renderItems]
      rw [scanStage_cons]
      simp only [hs.1, hs.2.1, hs.2.2.1, hs.2.2.2, if_false]
      rw [ih (args ++ [s]) o e htail]
      simp [itemArgs, stdoutOf, stderrOf]
    | redir op p =>
      simp only [itemsWF] at hhead
      have hcases : isOut1 op = true ∨ isOutA op = true ∨ isErr1 op = true ∨
          isErrA op = true := by
        simpa [isRedirOp, Bool.or_eq_true, or_assoc] using hhead
      rcases hcases with h | h | h | h
      · rcases (by simpa [isOut1, beq_iff_eq] using h : op = ">" ∨ op = "1>") with rfl | rfl
        · have e1 : isOut1 ">" = true := rfl
          have e2 : isErr1 ">" = false := rfl
          have e3 : isErrA ">" = false := rfl
          simp only [renderItems]
          rw [scanStage_cons]
          simp only [e1, if_true]
          rw [ih args (StdoutRedirect.truncate p) e htail]
          simp [itemArgs, stdoutOf, stderrOf, e1, e2, e3, if_true, if_false]
        · have e1 : isOut1 "1>" = true := rfl
          have e2 : isErr1 "1>" = false := rfl
          have e3 : isErrA "1>" = false := rfl
          simp only [renderItems]
          rw [scanStage_cons]
          simp only [e1, if_true]
          rw [ih args (StdoutRedirect.truncate p) e htail]
          simp [itemArgs, stdoutOf, stderrOf, e1, e2, e3, if_true, if_false]
      · rcases (by simpa [isOutA, beq_iff_eq] using h : op = ">>" ∨ op = "1>>") with rfl | rfl
        · have e0 : isOut1 ">>" = false := rfl
          have e1 : isOutA ">>" = true := rfl
          have e2 : isErr1 ">>" = false := rfl
          have e3 : isErrA ">>" = false := rfl
          simp only [renderItems]
          rw [scanStage_cons]
          simp only [e0, e1, if_true, if_false]
          rw [ih args (StdoutRedirect.append p) e htail]
          simp [itemArgs, stdoutOf, stderrOf, e0, e1, e2, e3, if_true, if_false]
        · have e0 : isOut1 "1>>" = false := rfl
          have e1 : isOutA "1>>" = true := rfl
          have e2 : isErr1 "1>>" = false := rfl
          have e3 : isErrA "1>>" = false := rfl
          simp only [renderItems]
          rw [scanStage_cons]
          simp only [e0, e1, if_true, if_false]
          rw [ih args (StdoutRedirect.append p) e htail]
          simp [itemArgs, stdoutOf, stderrOf, e0, e1, e2, e3, if_true, if_false]
      · have hop : op = "2>" := by simpa [isErr1, beq_iff_eq] using h
        subst hop
        have e0 : isOut1 "2>" = false := rfl
        have e1 : isOutA "2>" = false := rfl
        have e2 : isErr1 "2>" = true := rfl
        simp only [renderItems]
        rw [scanStage_cons]
        simp only [e0, e1, e2, if_true, if_false]
        rw [ih args o (StderrRedirect.truncate p) htail]
        simp [itemArgs, stdoutOf, stderrOf, e0, e1, e2, if_true, if_false]
      · have hop : op = "2>>" := by simpa [isErrA, beq_iff_eq] using h
        subst hop
        have e0 : isOut1 "2>>" = false := rfl
        have e1 : isOutA "2>>" = false := rfl
        have e2 : isErr1 "2>>" = false := rfl
        have e3 : isErrA "2>>" = true := rfl
        simp only [renderItems]
        rw [scanStage_cons]
        simp only [e0, e1, e2, e3, if_true, if_false]
        rw [ih args o (StderrRedirect.append p) htail]
        simp [itemArgs, stdoutOf, stderrOf, e0, e1, e2, e3, if_true, if_false]

/-- Folding the stdout target over an appended item sequence factors through
the intermediate target. -/
theorem stdoutOf_append (l1 l2 : List RItem) : ∀ o : StdoutRedirect,
    stdoutOf o (l1 ++ l2) = stdoutOf (stdoutOf o l1) l2 := by
  induction l1 with
  | nil => intro o; rfl
  | cons it rest ih =>
    intro o
    cases it with
    | arg s =>
      simp only [List.cons_append, stdoutOf]
      exact ih o
    | redir op p =>
      simp only [List.cons_append, stdoutOf]
      split
      · exact ih _
      · split
        · exact ih _
        · exact ih _

/-- Folding the stderr target over an appended item sequence factors through
the intermediate target. -/
theorem stderrOf_append (l1 l2 : List RItem) : ∀ e : StderrRedirect,
    stderrOf e (l1 ++ l2) = stderrOf (stderrOf e l1) l2 := by
  induction l1 with
  | nil => intro e; rfl
  | cons it rest ih =>
    intro e
    cases it with
    | arg s =>
      simp only [List.cons_append, stderrOf]
      exact ih e
    | redir op p =>
      simp only [List.cons_append, stderrOf]
      split
      · exact ih _
      · split
        · exact ih _
        · exact ih _

/-- Claim C9 (amended): whenever the tokens of a stage after the command
name decompose into plain arguments (none of which is itself an operator
token) and operator–path pairs, parsing succeeds; the resulting argument
list is exactly the plain arguments in order (no operator or path token
appears in it), and the stdout (resp. stderr) target is obtained by letting
each stdout (resp. stderr) operator overwrite the previous one — so with
more than one such operator the last one wins, as the appended-operator
equations state. -/
theorem claim_C9 :
    (∀ (cmd : String) (items : List RItem), itemsWF items →
        parse_command (cmd :: renderItems items) =
          some ⟨cmd, itemArgs items, stdoutOf StdoutRedirect.inherit items,
            stderrOf StderrRedirect.inherit items⟩) ∧
    (∀ (pre : List RItem) (o : StdoutRedirect) (p : String),
        stdoutOf o (pre ++ [RItem.redir ">" p]) = StdoutRedirect.truncate p ∧
        stdoutOf o (pre ++ [RItem.redir "1>" p]) = StdoutRedirect.truncate p ∧
        stdoutOf o (pre ++ [RItem.redir ">>" p]) = StdoutRedirect.append p ∧
        stdoutOf o (pre ++ [RItem.redir "1>>" p]) = StdoutRedirect.append p) ∧
    (∀ (pre : List RItem) (e : StderrRedirect) (p : String),
        stderrOf e (pre ++ [RItem.redir "2>" p]) = StderrRedirect.truncate p ∧
        stderrOf e (pre ++ [RItem.redir "2>>" p]) = StderrRedirect.append p) := by
  refine ⟨?_, ?_, ?_⟩
  · intro cmd items hwf
    have h := scan_render items [] StdoutRedirect.inherit StderrRedirect.inherit hwf
    simp only [List.nil_append] at h
    simp [parse_command, h]
  · intro pre o p
    refine ⟨?_, ?_, ?_, ?_⟩ <;> (rw [stdoutOf_append]; rfl)
  · intro pre e p
    refine ⟨?_, ?_⟩ <;> (rw [stderrOf_append]; rfl)

/-- Counterexample to C9 as stated: a stage token list containing more than
one stdout operator on which parsing fails (the scan reaches the trailing
operator with no path), and one on which parsing succeeds but the stored
target comes from the first operator — the second operator token was
consumed as the first one's path. -/
theorem claim_C9_counterexample :
    parse_command ["c", ">", "a", ">"] = none ∧
    parse_command ["c", ">", ">"] =
      some ⟨"c", [], StdoutRedirect.truncate ">", StderrRedirect.inherit⟩ :=
  ⟨rfl, rfl⟩

/-- Witness for C9: two stdout redirections with an argument between them;
the last one wins and neither the operators nor their paths reach the
argument list. -/
theorem claim_C9_witness :
    parse_command ["c", ">", "a", "x", ">", "b"] =
      some ⟨"c", ["x"], StdoutRedirect.truncate "b", StderrRedirect.inherit⟩ := by
  have h := claim_C9.1 "c" [RItem.redir ">" "a", RItem.arg "x", RItem.redir ">" "b"]
    (by intro it hit; fin_cases hit <;> rfl)
  exact h

/-- A prefix containing no whitespace has no last-whitespace position. -/
theorem rfindWs_none : ∀ (cs : List Char), (∀ c ∈ cs, c.isWhitespace = false) →
    rfindWs cs = none := by
  intro cs
  induction cs with
  | nil =>
    intro _
    rfl
  | cons c cs ih =>
    intro h
    have hc : c.isWhitespace = false := h c (List.mem_cons_self c cs)
    have ht : ∀ x ∈ cs, x.isWhitespace = false := fun x hx => h x (List.mem_cons_of_mem c hx)
    simp [rfindWs, ih ht, hc]

/-- Claim C4 (amended): on a completion request in command position whose
candidate set `ms` (sorted, deduplicated builtins-plus-PATH matches) has
more than one element, whose longest common prefix equals the typed prefix,
and whose incoming state is armed for that same prefix, the engine returns
the full candidate list (each candidate as its own display/replacement pair,
anchored at the token start, so the buffer content is not advanced), and the
resulting state is (last_prefix = typed prefix — left unchanged, armed =
false). -/
theorem claim_C4 :
    ∀ (execs : List String) (p : String) (st : CompletionState) (ms : List String),
      p ≠ "" →
      (∀ c ∈ p.toList, c.isWhitespace = false) →
      ms = dedupConsec (sortStrings
        ((["echo", "exit", "type", "pwd", "cd", "history"].filter
            (fun b => strStartsWith b p)) ++ execsStartingWith execs p)) →
      1 < ms.length →
      lcpOf ms = p →
      st.lastPfx = some p →
      st.armedForList = true →
      complete execs st p p.length =
        (⟨some p, false⟩, 0, ms.map (fun m => (⟨m, m⟩ : Pair))) := by
  intro execs p st ms hp hws hms hlen hlcp hst harm
  obtain ⟨lp, af⟩ := st
  dsimp only at hst harm
  subst hst
  subst harm
  have hcs : p.toList.take p.length = p.toList := by
    have hl : p.length = p.toList.length := rfl
    rw [hl, List.take_length]
  have hrf : rfindWs (p.toList.take p.length) = none := by
    rw [hcs]
    exact rfindWs_none p.toList hws
  have hmk : String.mk (p.toList.take p.length) = p := by
    rw [hcs]
    rfl
  cases ms with
  | nil => simp at hlen
  | cons m1 tail =>
    cases tail with
    | nil => simp at hlen
    | cons m2 tail2 =>
      simp only [complete, hrf, hmk]
      rw [← hms]
      simp only [hlcp]
      simp [hp, lt_irrefl]

/-- Counterexample to C4 as stated: on the armed second request for prefix
`e` (candidates `echo`, `exit`, LCP equal to the prefix), the engine does
return the full candidate list, but the resulting state keeps
`last_prefix = some "e"` — it is not reset to `None` as the claim's
transition table says. -/
theorem claim_C4_counterexample :
    complete [] ⟨some "e", true⟩ "e" 1 =
      (⟨some "e", false⟩, 0, [⟨"echo", "echo"⟩, ⟨"exit", "exit"⟩]) ∧
    CompletionState.lastPfx (complete [] ⟨some "e", true⟩ "e" 1).1 ≠ none := by
  constructor
  · decide
  · decide

/-- Witness for C4 at the concrete armed request for prefix `e`. -/
theorem claim_C4_witness :
    complete [] ⟨some "e", true⟩ "e" 1 =
      (⟨some "e", false⟩, 0, [⟨"echo", "echo"⟩, ⟨"exit", "exit"⟩]) := by
  have h := claim_C4 [] "e" ⟨some "e", true⟩ ["echo", "exit"] (by decide) (by decide)
    (by decide) (by decide) (by decide) rfl rfl
  exact h

/-- `reapOrder` distributes over trace concatenation. -/
theorem reapOrder_append (a b : List ExecEvent) :
    reapOrder (a ++ b) = reapOrder a ++ reapOrder b := by
  simp [reapOrder, List.filterMap_append]

/-- Spawn events reap nothing. -/
theorem reapOrder_mapSpawn (l : List (Nat × ParsedCommand)) : reapOrder (mapSpawn l) = [] := by
  induction l with
  | nil => rfl
  | cons q rest ih =>
    obtain ⟨i, st⟩ := q
    by_cases hb : is_builtin st.cmd = true <;>
      simp [mapSpawn, reapOrder, List.filterMap_cons, reapIndex, hb] <;>
      simpa [mapSpawn, reapOrder] using ih

/-- Joining builtin threads reaps exactly their stage indices, in order. -/
theorem reapOrder_joins (l : List Nat) : reapOrder (l.map ExecEvent.joinBuiltin) = l := by
  induction l with
  | nil => rfl
  | cons i rest ih =>
    simp only [List.map_cons, reapOrder, List.filterMap_cons, reapIndex]
    simpa [reapOrder] using ih

/-- Waiting on children reaps exactly their stage indices, in order. -/
theorem reapOrder_waits (l : List Nat) : reapOrder (l.map ExecEvent.waitChild) = l := by
  induction l with
  | nil => rfl
  | cons i rest ih =>
    simp only [List.map_cons, reapOrder, List.filterMap_cons, reapIndex]
    simpa [reapOrder] using ih

/-- When every non-builtin stage resolves, the spawn loop starts every stage
(builtin thread or child in stage order), collects the builtin and child
stage indices in ascending order, and does not abort. -/
theorem spawnStages_total : ∀ (r : String → Option String) (l : List (Nat × ParsedCommand)),
    (∀ p ∈ l, is_builtin (p.2).cmd = false → (r (p.2).cmd).isSome = true) →
    spawnStages r l =
      (mapSpawn l, (l.filter (fun p => is_builtin (p.2).cmd)).map Prod.fst,
        (l.filter (fun p => !is_builtin (p.2).cmd)).map Prod.fst, false) := by
  intro r l
  induction l with
  | nil =>
    intro _
    rfl
  | cons q rest ih =>
    intro h
    obtain ⟨i, st⟩ := q
    have htail := fun p hp => h p (List.mem_cons_of_mem _ hp)
    by_cases hb : is_builtin st.cmd = true
    · simp only [spawnStages, hb, if_true]
      rw [ih htail]
      simp [mapSpawn, hb]
    · have hs : (r st.cmd).isSome = true := by
        refine h (i, st) (List.mem_cons_self _ _) ?_
        simpa using hb
      obtain ⟨v, hv⟩ := Option.isSome_iff_exists.mp hs
      simp only [spawnStages, hb, if_false]
      rw [hv, ih htail]
      simp [mapSpawn, hb]

/-- When the spawn loop meets an unresolved non-builtin stage after a prefix
of stages that all start, it emits the command-not-found report and aborts:
nothing after the failing stage is spawned. -/
theorem spawnStages_abort : ∀ (r : String → Option String)
    (pre : List (Nat × ParsedCommand)) (k : Nat) (bad : ParsedCommand)
    (post : List (Nat × ParsedCommand)),
    (∀ p ∈ pre, is_builtin (p.2).cmd = false → (r (p.2).cmd).isSome = true) →
    is_builtin bad.cmd = false → r bad.cmd = none →
    spawnStages r (pre ++ (k, bad) :: post) =
      (mapSpawn pre ++ [ExecEvent.eprintMsg (bad.cmd ++ ": command not found")],
        (pre.filter (fun p => is_builtin (p.2).cmd)).map Prod.fst,
        (pre.filter (fun p => !is_builtin (p.2).cmd)).map Prod.fst, true) := by
  intro r pre
  induction pre with
  | nil =>
    intro k bad post _ hb hr
    simp only [List.nil_append, spawnStages, hb, if_false]
    rw [hr]
    simp [mapSpawn]
  | cons q rest ih =>
    intro k bad post h hb hr
    obtain ⟨i, st⟩ := q
    have htail := fun p hp => h p (List.mem_cons_of_mem _ hp)
    by_cases hq : is_builtin st.cmd = true
    · simp only [List.cons_append, spawnStages, hq, if_true, List.append_eq]
      rw [ih k bad post htail hb hr]
      simp [mapSpawn, hq]
    · have hs : (r st.cmd).isSome = true := by
        refine h (i, st) (List.mem_cons_self _ _) ?_
        simpa using hq
      obtain ⟨v, hv⟩ := Option.isSome_iff_exists.mp hs
      simp only [List.cons_append, spawnStages, List.append_eq]
      rw [hv, ih k bad post htail hb hr]
      simp [mapSpawn, hq]

/-- Claim C1 (amended): after every stage of the pipeline has been started
(and the parent's pipe ends closed), the executor reaps the builtin-stage
threads first, in ascending stage order, and then the external-stage
children, also in ascending (spawn) order — the join loop over
`builtin_threads` followed by the wait loop over `children`.  The reap
order is therefore builtin indices followed by external indices, not
last-stage-first. -/
theorem claim_C1 :
    ∀ (r : String → Option String) (stages : List ParsedCommand),
      stages ≠ [] →
      (∀ p ∈ stages.enum, is_builtin (p.2).cmd = false → (r (p.2).cmd).isSome = true) →
      execute_pipeline r stages =
        mapSpawn stages.enum ++
          ExecEvent.closePipes ::
            ((builtinIdxs stages).map ExecEvent.joinBuiltin ++
              (externalIdxs stages).map ExecEvent.waitChild) ∧
      reapOrder (execute_pipeline r stages) = builtinIdxs stages ++ externalIdxs stages := by
  intro r stages hne h
  have hsp := spawnStages_total r stages.enum h
  have h1 : execute_pipeline r stages =
      mapSpawn stages.enum ++
        ExecEvent.closePipes ::
          ((builtinIdxs stages).map ExecEvent.joinBuiltin ++
            (externalIdxs stages).map ExecEvent.waitChild) := by
    unfold execute_pipeline
    rw [if_neg hne, hsp]
    simp [builtinIdxs, externalIdxs]
  refine ⟨h1, ?_⟩
  rw [h1]
  rw [show ExecEvent.closePipes ::
      ((builtinIdxs stages).map ExecEvent.joinBuiltin ++
        (externalIdxs stages).map ExecEvent.waitChild) =
      [ExecEvent.closePipes] ++
        ((builtinIdxs stages).map ExecEvent.joinBuiltin ++
          (externalIdxs stages).map ExecEvent.waitChild) from rfl]
  rw [reapOrder_append, reapOrder_append, reapOrder_append, reapOrder_mapSpawn,
    reapOrder_joins, reapOrder_waits]
  rfl

/-- Counterexample to C1 as stated: a two-stage all-external pipeline
(`yes | head -n 3`) is reaped first-stage-first — the wait on stage 0 comes
before the wait on the final stage 1. -/
theorem claim_C1_counterexample :
    reapOrder (execute_pipeline
      (fun s => if s = "yes" ∨ s = "head" then some ("/bin/" ++ s) else none)
      [⟨"yes", [], StdoutRedirect.inherit, StderrRedirect.inherit⟩,
       ⟨"head", ["-n", "3"], StdoutRedirect.inherit, StderrRedirect.inherit⟩]) = [0, 1] ∧
    (reapOrder (execute_pipeline
      (fun s => if s = "yes" ∨ s = "head" then some ("/bin/" ++ s) else none)
      [⟨"yes", [], StdoutRedirect.inherit, StderrRedirect.inherit⟩,
       ⟨"head", ["-n", "3"], StdoutRedirect.inherit, StderrRedirect.inherit⟩])).head? ≠
      some 1 := by
  constructor
  · decide
  · decide

/-- Witness for C1 on the concrete `yes | head -n 3` pipeline. -/
theorem claim_C1_witness :
    execute_pipeline
      (fun s => if s = "yes" ∨ s = "head" then some ("/bin/" ++ s) else none)
      [⟨"yes", [], StdoutRedirect.inherit, StderrRedirect.inherit⟩,
       ⟨"head", ["-n", "3"], StdoutRedirect.inherit, StderrRedirect.inherit⟩] =
      [ExecEvent.spawnExternal 0 "yes", ExecEvent.spawnExternal 1 "head",
       ExecEvent.closePipes, ExecEvent.waitChild 0, ExecEvent.waitChild 1] := by
  have h := (claim_C1
    (fun s => if s = "yes" ∨ s = "head" then some ("/bin/" ++ s) else none)
    [⟨"yes", [], StdoutRedirect.inherit, StderrRedirect.inherit⟩,
     ⟨"head", ["-n", "3"], StdoutRedirect.inherit, StderrRedirect.inherit⟩]
    (by decide) (by decide)).1
  simpa using h

/-- Claim C2 (amended): when a non-builtin stage of a multi-stage pipeline
does not resolve (every earlier stage having started), the executor prints
"`<name>`: command not found" with `eprintln!` to the shell's own stderr —
the stage's stderr redirect target is not consulted — and then returns,
aborting the entire pipeline: stages after the failing one are never
started, and nothing at all is reaped (already-running children are not
waited on, builtin threads are not joined). -/
theorem claim_C2 :
    ∀ (r : String → Option String) (stages : List ParsedCommand)
      (preE : List (Nat × ParsedCommand)) (k : Nat) (bad : ParsedCommand)
      (postE : List (Nat × ParsedCommand)),
      stages.enum = preE ++ (k, bad) :: postE →
      (∀ p ∈ preE, is_builtin (p.2).cmd = false → (r (p.2).cmd).isSome = true) →
      is_builtin bad.cmd = false →
      r bad.cmd = none →
      execute_pipeline r stages =
        mapSpawn preE ++
          [ExecEvent.eprintMsg (bad.cmd ++ ": command not found"),
            ExecEvent.closePipes] ∧
      reapOrder (execute_pipeline r stages) = [] := by
  intro r stages preE k bad postE henum hpre hb hr
  have hne : stages ≠ [] := by
    intro h0
    subst h0
    have hlen := congrArg List.length henum
    simp at hlen
    omega
  have hsp := spawnStages_abort r preE k bad postE hpre hb hr
  have h1 : execute_pipeline r stages =
      mapSpawn preE ++
        [ExecEvent.eprintMsg (bad.cmd ++ ": command not found"), ExecEvent.closePipes] := by
    unfold execute_pipeline
    rw [if_neg hne, henum, hsp]
    simp [List.append_assoc]
  refine ⟨h1, ?_⟩
  rw [h1, reapOrder_append, reapOrder_mapSpawn]
  rfl

/-- Counterexample to C2 as stated: in `nosuch | cat` (with `nosuch`
unresolved and its stderr redirected to a file), the error is emitted as a
bare `eprintln` event — no write to the stage's redirect target occurs —
and the sibling stage `cat` is never started and never reaped, contradicting
"every other stage of the pipeline is still started, runs, and is
reaped". -/
theorem claim_C2_counterexample :
    execute_pipeline (fun s => if s = "cat" then some "/bin/cat" else none)
      [⟨"nosuch", [], StdoutRedirect.inherit, StderrRedirect.truncate "err.txt"⟩,
       ⟨"cat", [], StdoutRedirect.inherit, StderrRedirect.inherit⟩] =
      [ExecEvent.eprintMsg "nosuch: command not found", ExecEvent.closePipes] ∧
    ExecEvent.spawnExternal 1 "cat" ∉
      execute_pipeline (fun s => if s = "cat" then some "/bin/cat" else none)
        [⟨"nosuch", [], StdoutRedirect.inherit, StderrRedirect.truncate "err.txt"⟩,
         ⟨"cat", [], StdoutRedirect.inherit, StderrRedirect.inherit⟩] ∧
    reapOrder (execute_pipeline (fun s => if s = "cat" then some "/bin/cat" else none)
      [⟨"nosuch", [], StdoutRedirect.inherit, StderrRedirect.truncate "err.txt"⟩,
       ⟨"cat", [], StdoutRedirect.inherit, StderrRedirect.inherit⟩]) = [] := by
  refine ⟨?_, ?_, ?_⟩
  · decide
  · decide
  · decide

/-- Witness for C2 on the concrete `nosuch | cat` pipeline. -/
theorem claim_C2_witness :
    execute_pipeline (fun s => if s = "cat" then some "/bin/cat" else none)
      [⟨"nosuch", [], StdoutRedirect.inherit, StderrRedirect.truncate "err.txt"⟩,
       ⟨"cat", [], StdoutRedirect.inherit, StderrRedirect.inherit⟩] =
      [ExecEvent.eprintMsg "nosuch: command not found", ExecEvent.closePipes] := by
  have h := claim_C2 (fun s => if s = "cat" then some "/bin/cat" else none)
    [⟨"nosuch", [], StdoutRedirect.inherit, StderrRedirect.truncate "err.txt"⟩,
     ⟨"cat", [], StdoutRedirect.inherit, StderrRedirect.inherit⟩]
    [] 0 ⟨"nosuch", [], StdoutRedirect.inherit, StderrRedirect.truncate "err.txt"⟩
    [(1, ⟨"cat", [], StdoutRedirect.inherit, StderrRedirect.inherit⟩)]
    (by decide) (by intro p hp; cases hp) (by decide) rfl
  simpa using h.1
